import Mathlib

/-!
Verification model of the `create-deployment-matrix` GitHub Action
(`src/index.js`).  The action reads five inputs, validates them, builds a
shell command for the external `workflow-utils` tool, runs it, decodes the
captured standard output as JSON (unwrapping one level of accidental
double-encoding), and publishes the result plus a markdown summary.

The JSON fragment modelled here covers exactly what `JSON.parse` /
`JSON.stringify` are exercised with by this action: objects, arrays,
strings (with quote/backslash escaping; `\uXXXX` sequences and the
control-character rules are outside the fragment), integer numerals
(floating-point numerals are not produced by the matrix tool and are
not modelled), booleans and null.  Objects are association lists in
insertion order.
-/

namespace DeployMatrix

/-- The JSON value sum type at the decode boundary. -/
inductive Json where
  | null : Json
  | bool (b : Bool) : Json
  | num (n : Int) : Json
  | str (s : String) : Json
  | arr (xs : List Json) : Json
  | obj (ms : List (String × Json)) : Json
deriving Repr

/-! ## Decimal numerals -/

/-- Fuel-indexed digit-emission loop (any `fuel > n` yields the digits of
`n`, most significant first). -/
def natToCharsF : Nat → Nat → List Char
  | 0, _ => []
  | fuel + 1, n =>
    if n < 10 then [Nat.digitChar n]
    else natToCharsF fuel (n / 10) ++ [Nat.digitChar (n % 10)]

/-- Decimal digit characters of a natural number, most significant first. -/
def natToChars (n : Nat) : List Char := natToCharsF (n + 1) n

/-- Decimal digit characters of an integer (minus sign for negatives). -/
def intToChars (i : Int) : List Char :=
  if i < 0 then '-' :: natToChars i.natAbs else natToChars i.toNat

/-! ## Serialization: the model of `JSON.stringify` (compact form) -/

/-- Escape a string body the way `JSON.stringify` does for the characters
this fragment contains: quote and backslash get a backslash prefix. -/
def escapeChars : List Char → List Char
  | [] => []
  | c :: r =>
    if c = '"' ∨ c = '\\' then '\\' :: c :: escapeChars r
    else c :: escapeChars r

mutual

/-- Compact serialization of a JSON value (model of `JSON.stringify(v)`). -/
def stringifyChars : Json → List Char
  | .null => "null".data
  | .bool b => (if b then "true" else "false").data
  | .num i => intToChars i
  | .str s => '"' :: (escapeChars s.data ++ ['"'])
  | .arr xs => '[' :: (elemsChars xs ++ [']'])
  | .obj ms => '\x7b' :: (membersChars ms ++ ['\x7d'])

/-- Array elements joined by commas. -/
def elemsChars : List Json → List Char
  | [] => []
  | [x] => stringifyChars x
  | x :: xs => stringifyChars x ++ ',' :: elemsChars xs

/-- Object members `"key":value` joined by commas. -/
def membersChars : List (String × Json) → List Char
  | [] => []
  | [(k, v)] => '"' :: (escapeChars k.data ++ '"' :: ':' :: stringifyChars v)
  | (k, v) :: ms =>
      '"' :: (escapeChars k.data ++ '"' :: ':' :: stringifyChars v)
        ++ ',' :: membersChars ms

end

/-- `JSON.stringify(v)` as a `String`. -/
def jsonStringify (v : Json) : String := String.mk (stringifyChars v)

/-! ## Parsing: the model of `JSON.parse` -/

/-- JSON insignificant whitespace (space, tab, LF, CR) — the same four
characters recognised by `Char.isWhitespace`. -/
def skipWs (cs : List Char) : List Char := cs.dropWhile Char.isWhitespace

/-- Numeric value of a decimal digit character. -/
def charDigit (c : Char) : Nat := c.toNat - 48

/-- Parse a nonempty run of leading decimal digits. -/
def parseDigits (cs : List Char) : Option (Nat × List Char) :=
  let ds := cs.takeWhile Char.isDigit
  if ds.isEmpty then none
  else some (ds.foldl (fun a c => 10 * a + charDigit c) 0, cs.dropWhile Char.isDigit)

/-- Parse an integer numeral (optional minus sign, then digits). -/
def parseNumber (cs : List Char) : Option (Int × List Char) :=
  match cs with
  | [] => none
  | c :: r =>
    if c = '-' then
      match parseDigits r with
      | some (n, rest) => some (-(n : Int), rest)
      | none => none
    else
      match parseDigits (c :: r) with
      | some (n, rest) => some ((n : Int), rest)
      | none => none

/-- Undo one string escape: the escapes accepted in this fragment. -/
def unescapeChar (c : Char) : Option Char :=
  if c = '"' then some '"'
  else if c = '\\' then some '\\'
  else if c = '/' then some '/'
  else if c = 'n' then some '\n'
  else if c = 't' then some '\t'
  else if c = 'r' then some '\r'
  else if c = 'b' then some (Char.ofNat 8)
  else if c = 'f' then some (Char.ofNat 12)
  else none

/-- Parse the body of a string literal (the opening quote already
consumed), up to and including the closing quote. -/
def parseStrChars : List Char → Option (List Char × List Char)
  | [] => none
  | c :: r =>
    if c = '"' then some ([], r)
    else if c = '\\' then
      match r with
      | [] => none
      | e :: r2 =>
        match unescapeChar e with
        | none => none
        | some d =>
          match parseStrChars r2 with
          | none => none
          | some (s, rest) => some (d :: s, rest)
    else
      match parseStrChars r with
      | none => none
      | some (s, rest) => some (c :: s, rest)

mutual

/-- Fuel-indexed recursive-descent JSON value parser: returns the value
and the unconsumed remainder. -/
def parseValue : Nat → List Char → Option (Json × List Char)
  | 0, _ => none
  | fuel + 1, cs =>
    match skipWs cs with
    | [] => none
    | c :: r =>
      if c = '\x7b' then
        match skipWs r with
        | [] => none
        | c2 :: r2 =>
          if c2 = '\x7d' then some (.obj [], r2)
          else
            match parseMembers fuel (c2 :: r2) with
            | some (ms, r3) => some (.obj ms, r3)
            | none => none
      else if c = '[' then
        match skipWs r with
        | [] => none
        | c2 :: r2 =>
          if c2 = ']' then some (.arr [], r2)
          else
            match parseElems fuel (c2 :: r2) with
            | some (vs, r3) => some (.arr vs, r3)
            | none => none
      else if c = '"' then
        match parseStrChars r with
        | some (l, r2) => some (.str (String.mk l), r2)
        | none => none
      else if c = 'n' then
        match r with
        | 'u' :: 'l' :: 'l' :: r2 => some (.null, r2)
        | _ => none
      else if c = 't' then
        match r with
        | 'r' :: 'u' :: 'e' :: r2 => some (.bool true, r2)
        | _ => none
      else if c = 'f' then
        match r with
        | 'a' :: 'l' :: 's' :: 'e' :: r2 => some (.bool false, r2)
        | _ => none
      else if c = '-' ∨ c.isDigit then
        match parseNumber (c :: r) with
        | some (n, r2) => some (.num n, r2)
        | none => none
      else none

/-- One or more comma-separated array elements, ending at `]`. -/
def parseElems : Nat → List Char → Option (List Json × List Char)
  | 0, _ => none
  | fuel + 1, cs =>
    match parseValue fuel cs with
    | none => none
    | some (v, r) =>
      match skipWs r with
      | [] => none
      | c :: r2 =>
        if c = ',' then
          match parseElems fuel r2 with
          | none => none
          | some (vs, r3) => some (v :: vs, r3)
        else if c = ']' then some ([v], r2)
        else none

/-- One or more comma-separated object members, ending at `}`. -/
def parseMembers : Nat → List Char → Option (List (String × Json) × List Char)
  | 0, _ => none
  | fuel + 1, cs =>
    match skipWs cs with
    | [] => none
    | c :: r =>
      if c = '"' then
        match parseStrChars r with
        | none => none
        | some (k, r2) =>
          match skipWs r2 with
          | [] => none
          | c2 :: r3 =>
            if c2 = ':' then
              match parseValue fuel r3 with
              | none => none
              | some (v, r4) =>
                match skipWs r4 with
                | [] => none
                | c3 :: r5 =>
                  if c3 = ',' then
                    match parseMembers fuel r5 with
                    | none => none
                    | some (ms, r6) => some ((String.mk k, v) :: ms, r6)
                  else if c3 = '\x7d' then some ([(String.mk k, v)], r5)
                  else none
            else none
      else none

end

/-- The model of `JSON.parse`: parse a complete document, allowing
surrounding whitespace, requiring the whole input to be consumed.
`none` models `JSON.parse` throwing a `SyntaxError`. -/
def jsonParse (s : String) : Option Json :=
  match parseValue (s.data.length + 1) s.data with
  | some (v, rest) => if skipWs rest = [] then some v else none
  | none => none

/-! ## Trimming: the model of `String.prototype.trim` on the
whitespace actually produced by the tool (space, tab, LF, CR). -/

/-- Drop leading and trailing whitespace characters. -/
def trimChars (l : List Char) : List Char :=
  ((l.dropWhile Char.isWhitespace).reverse.dropWhile Char.isWhitespace).reverse

/-- The model of `stdout.trim()`. -/
def jsTrim (s : String) : String := String.mk (trimChars s.data)

/-- Head-boundary condition for the remainder after a serialized value:
parsing must not be able to absorb a following digit into a numeral, and
serialized JSON never puts a digit right after a value. -/
def digitFreeHead : List Char → Bool
  | [] => true
  | c :: _ => !c.isDigit

mutual

/-- Node count of a JSON value; a fuel bound for the parser. -/
def sizeJ : Json → Nat
  | .arr xs => sizeElems xs + 1
  | .obj ms => sizeMembers ms + 1
  | _ => 1

/-- Node count of an element list. -/
def sizeElems : List Json → Nat
  | [] => 0
  | x :: xs => sizeJ x + sizeElems xs + 1

/-- Node count of a member list. -/
def sizeMembers : List (String × Json) → Nat
  | [] => 0
  | m :: ms => sizeJ m.2 + sizeMembers ms + 1

end

/-! ## Pretty printing: the model of `JSON.stringify(v, null, 2)` -/

mutual

/-- Two-space-indented serialization at ambient indentation `ind`. -/
def prettyChars (ind : List Char) : Json → List Char
  | .arr [] => ['[', ']']
  | .arr (x :: xs) =>
      '[' :: '\n' ::
        (prettyElems (ind ++ [' ', ' ']) (x :: xs) ++ '\n' :: (ind ++ [']']))
  | .obj [] => ['\x7b', '\x7d']
  | .obj (m :: ms) =>
      '\x7b' :: '\n' ::
        (prettyMembers (ind ++ [' ', ' ']) (m :: ms) ++ '\n' :: (ind ++ ['\x7d']))
  | v => stringifyChars v

/-- Indented array elements, one per line, comma-separated. -/
def prettyElems (ind : List Char) : List Json → List Char
  | [] => []
  | [x] => ind ++ prettyChars ind x
  | x :: xs => ind ++ prettyChars ind x ++ ',' :: '\n' :: prettyElems ind xs

/-- Indented object members `"key": value`, one per line, comma-separated. -/
def prettyMembers (ind : List Char) : List (String × Json) → List Char
  | [] => []
  | [(k, v)] =>
      ind ++ '"' :: (escapeChars k.data ++ '"' :: ':' :: ' ' :: prettyChars ind v)
  | (k, v) :: ms =>
      ind ++ '"' :: (escapeChars k.data ++ '"' :: ':' :: ' ' :: prettyChars ind v)
        ++ ',' :: '\n' :: prettyMembers ind ms

end

/-- `JSON.stringify(v, null, 2)` as a `String`. -/
def jsonStringifyPretty (v : Json) : String := String.mk (prettyChars [] v)

/-! ## The action model (`src/index.js`) -/

/-- The five configuration inputs of the action.  `core.getInput` yields
the empty string for an input that was not supplied, so absent and empty
inputs are both represented by `""`. -/
structure Config where
  overlay : String
  branch : String
  tag : String
  githubToken : String
  repoPath : String

/-- `core.getInput('branch') || 'main'`. -/
def resolvedBranch (cfg : Config) : String :=
  if cfg.branch = "" then "main" else cfg.branch

/-- `core.getInput('repo-path') || '.'`. -/
def resolvedRepoPath (cfg : Config) : String :=
  if cfg.repoPath = "" then "." else cfg.repoPath

/-- The fixed part of the external tool invocation (line 31 of the
source): subcommand, directory, output format, branch and tag. -/
def cmdBase (branch tag : String) : String :=
  "npx --yes workflow-utils get-services-env-config -dir . -outputFormat github-matrix -branch "
    ++ branch ++ " -actionTag " ++ tag

/-- The full command string: the filter flag is appended only when the
overlay input is truthy (nonempty), lines 31-38 of the source. -/
def buildCmd (branch tag overlay : String) : String :=
  if overlay ≠ "" then cmdBase branch tag ++ " -envFilter " ++ overlay
  else cmdBase branch tag

/-- The command the run builds from its resolved inputs. -/
def theCmd (cfg : Config) : String :=
  buildCmd (resolvedBranch cfg) cfg.tag cfg.overlay

/-- The captured result of a subprocess execution. -/
structure ProcessResult where
  exitCode : Int
  stdout : String
  stderr : String

/-- One subprocess invocation: program, arguments, working directory and
the `GITHUB_TOKEN` environment binding added for it (line 46-51). -/
structure ExecCall where
  tool : String
  args : List String
  cwd : String
  envToken : String

/-- The run environment: the filesystem-existence oracle
(`fs.existsSync`) and the subprocess executor (`exec.exec`). -/
structure World where
  fsExists : String → Bool
  exec : ExecCall → ProcessResult

/-- The single `exec.exec('bash', ['-c', cmd], options)` call a validated
run performs (line 62). -/
def theCall (cfg : Config) : ExecCall :=
  { tool := "bash"
    args := ["-c", theCmd cfg]
    cwd := resolvedRepoPath cfg
    envToken := cfg.githubToken }

/-- The errors a run can end with.  The spec taxonomy groups them:
`ConfigurationError` = `repoNotFound`/`tagRequired`/`tokenRequired`,
`SubprocessError` = `execFailed`/`emptyResult` (`exec.exec` rejects on a
nonzero exit status), `MatrixParseError` = `parseFailed`. -/
inductive RunError where
  | repoNotFound (p : String)
  | tagRequired
  | tokenRequired
  | execFailed (code : Int)
  | emptyResult
  | parseFailed (raw : String)
deriving DecidableEq, Repr

/-- Stand-in for the engine-specific `SyntaxError` message produced by a
failing `JSON.parse` (its exact wording is a platform detail). -/
def jsonSyntaxErrorMessage : String := "Unexpected token in JSON"

/-- The `error.message` text of each failure, mirroring the throw sites
of the source (the `execFailed` wording is the message `@actions/exec`
rejects with). -/
def errorMessage : RunError → String
  | .repoNotFound p => "Repository path not found: " ++ p
  | .tagRequired => "tag input is required"
  | .tokenRequired => "github-token input is required"
  | .execFailed code =>
      "The process bash failed with exit code " ++ toString code
  | .emptyResult => "Failed to generate matrix - empty result"
  | .parseFailed raw =>
      "Failed to parse matrix JSON: " ++ jsonSyntaxErrorMessage
        ++ "\nOutput: " ++ raw

/-- Spec classification: `ConfigurationError`. -/
def RunError.isConfigurationError : RunError → Bool
  | .repoNotFound _ => true
  | .tagRequired => true
  | .tokenRequired => true
  | _ => false

/-- Spec classification: `SubprocessError`. -/
def RunError.isSubprocessError : RunError → Bool
  | .execFailed _ => true
  | .emptyResult => true
  | _ => false

/-- Spec classification: `MatrixParseError`. -/
def RunError.isMatrixParseError : RunError → Bool
  | .parseFailed _ => true
  | _ => false

/-- One piece of the markdown summary written to the report channel. -/
inductive SummaryPart where
  | heading (text : String) (level : Nat)
  | raw (text : String)
  | codeBlock (code lang : String)
deriving DecidableEq, Repr

/-- The success report (lines 95-106 of the source). -/
def successSummary (tag branch overlay : String) (m : Json) : List SummaryPart :=
  [ .heading "📊 Deployment Matrix Summary" 2
  , .raw "\n"
  , .raw "✅ **Status:** Successfully generated deployment matrix\n\n"
  , .heading "🎯 Configuration" 3
  , .raw ("- **Tag:** `" ++ tag ++ "`\n")
  , .raw ("- **Branch:** `" ++ branch ++ "`\n")
  , .raw (if overlay ≠ "" then "- **Environment:** `" ++ overlay ++ "`\n"
          else "- **Environment:** All environments\n")
  , .raw "\n"
  , .heading "📋 Matrix Output" 3
  , .codeBlock (jsonStringifyPretty m) "json" ]

/-- The failure report (lines 112-118 of the source). -/
def failureSummary (e : RunError) : List SummaryPart :=
  [ .heading "📊 Deployment Matrix Summary" 2
  , .raw "\n"
  , .raw "❌ **Status:** Failed to generate matrix\n\n"
  , .raw "Check the logs above for error details.\n\n"
  , .raw ("**Error:** " ++ errorMessage e) ]

/-- Everything a run observably does, per channel: `core.info` messages,
subprocess invocations, `core.setOutput` pairs, `core.setFailed`
messages, summaries written to the report channel, and the final value
or error of the pipeline. -/
structure Effects where
  infos : List String
  execCalls : List ExecCall
  outputs : List (String × String)
  failures : List String
  summaries : List (List SummaryPart)
  outcome : Except RunError Json

/-- The Result Normalizer (lines 72-85): trim, decode, unwrap one level
of double-encoding when the first decode yields a string.  Returns the
info messages it logs alongside the result; any decode failure carries
the raw (untrimmed) output. -/
def normalize (raw : String) : List String × Except RunError Json :=
  match jsonParse (jsTrim raw) with
  | none => ([], .error (.parseFailed raw))
  | some (Json.str s) =>
      (["Detected double-encoded JSON, decoding..."],
        match jsonParse s with
        | none => .error (.parseFailed raw)
        | some m => .ok m)
  | some m => ([], .ok m)

/-- The failure path of `run` (the catch block, lines 108-119):
`core.setFailed(error.message)` plus the failure report. -/
def failEffects (logs : List String) (calls : List ExecCall) (e : RunError) : Effects :=
  { infos := logs
    execCalls := calls
    outputs := []
    failures := [errorMessage e]
    summaries := [failureSummary e]
    outcome := .error e }

/-- The two fixed progress messages logged after validation (lines 27-28). -/
def preludeLogs : List String :=
  [ "🔍 Reading .koala-monorepo.json from repo root to identify services"
  , "📋 Extracting deployment configuration from .koala.toml files for different environments" ]

/-- The environment-filter log line (lines 33-38). -/
def overlayLogs (overlay : String) : List String :=
  if overlay ≠ "" then ["🎯 Filtering for environment: " ++ overlay]
  else ["🌍 Including all environments"]

/-- The whole action run (`run()` in `src/index.js`): validation in
source order (filesystem, tag, token), command construction, one
subprocess invocation, emptiness check, normalization, and publishing.
Every path ends in exactly one summary. -/
def run (cfg : Config) (w : World) : Effects :=
  if w.fsExists (resolvedRepoPath cfg) = false then
    failEffects [] [] (RunError.repoNotFound (resolvedRepoPath cfg))
  else if cfg.tag = "" then
    failEffects [] [] RunError.tagRequired
  else if cfg.githubToken = "" then
    failEffects [] [] RunError.tokenRequired
  else
    let logs1 := preludeLogs ++ overlayLogs cfg.overlay
      ++ ["📦 Executing: " ++ theCmd cfg]
    let pr := w.exec (theCall cfg)
    if pr.exitCode ≠ 0 then
      failEffects logs1 [theCall cfg] (RunError.execFailed pr.exitCode)
    else if jsTrim pr.stdout = "" then
      failEffects logs1 [theCall cfg] RunError.emptyResult
    else
      let logs2 := logs1 ++ ["Raw output from workflow-utils:", pr.stdout]
      let nr := normalize pr.stdout
      match nr.2 with
      | Except.error e => failEffects (logs2 ++ nr.1) [theCall cfg] e
      | Except.ok m =>
          { infos := logs2 ++ nr.1
              ++ ["✅ Generated deployment matrix:", jsonStringifyPretty m]
            execCalls := [theCall cfg]
            outputs := [("matrix", jsonStringify m)]
            failures := []
            summaries := [successSummary cfg.tag (resolvedBranch cfg) cfg.overlay m]
            outcome := Except.ok m }

/-- Erase the credential binding from recorded subprocess calls; used to
state that everything else a run does is independent of the credential. -/
def scrubToken (e : Effects) : Effects :=
  { e with execCalls := e.execCalls.map (fun c => { c with envToken := "" }) }

/-! ## Basic helper lemmas -/

theorem string_append_empty (s : String) : s ++ "" = s := by
  cases s with
  | mk l => show String.mk (l ++ []) = String.mk l; rw [List.append_nil]

theorem skipWs_cons_of_not_ws (c : Char) (l : List Char)
    (h : c.isWhitespace = false) : skipWs (c :: l) = c :: l := by
  simp [skipWs, List.dropWhile, h]

theorem digit_not_ws (c : Char) (h : c.isDigit = true) :
    c.isWhitespace = false := by
  by_contra hw
  rw [Bool.not_eq_false] at hw
  simp only [Char.isWhitespace, Bool.or_eq_true, decide_eq_true_eq] at hw
  rcases hw with ((h1 | h1) | h1) | h1 <;> subst h1 <;> simp [Char.isDigit] at h

theorem jsonParse_empty : jsonParse "" = none := rfl

/-- `run` only reads the configuration through its resolved views. -/
theorem run_resolved_congr (cfg cfg2 : Config) (w : World)
    (ho : cfg.overlay = cfg2.overlay)
    (hb : resolvedBranch cfg = resolvedBranch cfg2)
    (ht : cfg.tag = cfg2.tag)
    (hk : cfg.githubToken = cfg2.githubToken)
    (hr : resolvedRepoPath cfg = resolvedRepoPath cfg2) :
    run cfg w = run cfg2 w := by
  simp only [run, theCall, theCmd, ho, hb, ht, hk, hr]

/-! ## Claim theorems -/

/-- Claim C7: every run — success or any failure — writes exactly one
report to the report channel (the Publisher, modelled as the two summary
blocks of the source, is a total function and never raises). -/
theorem run_exactly_one_summary (cfg : Config) (w : World) :
    (run cfg w).summaries.length = 1 := by
  simp only [run]
  split
  · rfl
  · split
    · rfl
    · split
      · rfl
      · split
        · rfl
        · split
          · rfl
          · split
            · rfl
            · rfl

/-- Claim C2 counterexample: with an empty `tag` and a nonexistent
repository path, the run fails with the filesystem error, not the
missing-tag error — so the missing-tag check does not precede the
filesystem-existence check. -/
theorem run_validation_order_cex :
    (run { overlay := "", branch := "", tag := "", githubToken := "t", repoPath := "nope" }
        { fsExists := fun _ => false
          exec := fun _ => { exitCode := 0, stdout := "", stderr := "" } }).outcome
      = Except.error (RunError.repoNotFound "nope") ∧
    (Except.error (RunError.repoNotFound "nope") : Except RunError Json)
      ≠ Except.error RunError.tagRequired := by
  refine ⟨rfl, fun h => ?_⟩
  injection h with h2
  exact absurd h2 (by decide)

/-- Claim C2 (amended): a missing resolved repository path, an empty tag,
or an empty credential each fail the run with a `ConfigurationError` and
zero subprocess invocations; the filesystem-existence check precedes the
missing-tag check, which precedes the missing-credential check. -/
theorem run_validation_spec (cfg : Config) (w : World) :
    (w.fsExists (resolvedRepoPath cfg) = false →
      (run cfg w).outcome = Except.error (RunError.repoNotFound (resolvedRepoPath cfg)) ∧
      (run cfg w).execCalls = [] ∧
      (RunError.repoNotFound (resolvedRepoPath cfg)).isConfigurationError = true) ∧
    (w.fsExists (resolvedRepoPath cfg) = true → cfg.tag = "" →
      (run cfg w).outcome = Except.error RunError.tagRequired ∧
      (run cfg w).execCalls = [] ∧
      RunError.tagRequired.isConfigurationError = true) ∧
    (w.fsExists (resolvedRepoPath cfg) = true → cfg.tag ≠ "" → cfg.githubToken = "" →
      (run cfg w).outcome = Except.error RunError.tokenRequired ∧
      (run cfg w).execCalls = [] ∧
      RunError.tokenRequired.isConfigurationError = true) := by
  refine ⟨fun h1 => ?_, fun h1 h2 => ?_, fun h1 h2 h3 => ?_⟩
  · simp [run, h1, failEffects, RunError.isConfigurationError]
  · simp [run, h1, h2, failEffects, RunError.isConfigurationError]
  · simp [run, h1, h2, h3, failEffects, RunError.isConfigurationError]

/-- Claim C2 witness: the amended theorem at concrete inputs — one run
per validation failure, each with a configuration error and no
subprocess invocation. -/
theorem run_validation_spec_witness :
    ((run { overlay := "", branch := "", tag := "v1", githubToken := "t", repoPath := "miss" }
        { fsExists := fun _ => false
          exec := fun _ => { exitCode := 0, stdout := "x", stderr := "" } }).outcome
      = Except.error (RunError.repoNotFound "miss") ∧
     (run { overlay := "", branch := "", tag := "v1", githubToken := "t", repoPath := "miss" }
        { fsExists := fun _ => false
          exec := fun _ => { exitCode := 0, stdout := "x", stderr := "" } }).execCalls = [] ∧
     (RunError.repoNotFound "miss").isConfigurationError = true) ∧
    ((run { overlay := "", branch := "", tag := "", githubToken := "t", repoPath := "" }
        { fsExists := fun _ => true
          exec := fun _ => { exitCode := 0, stdout := "x", stderr := "" } }).outcome
      = Except.error RunError.tagRequired ∧
     (run { overlay := "", branch := "", tag := "", githubToken := "t", repoPath := "" }
        { fsExists := fun _ => true
          exec := fun _ => { exitCode := 0, stdout := "x", stderr := "" } }).execCalls = [] ∧
     RunError.tagRequired.isConfigurationError = true) ∧
    ((run { overlay := "", branch := "", tag := "v1", githubToken := "", repoPath := "" }
        { fsExists := fun _ => true
          exec := fun _ => { exitCode := 0, stdout := "x", stderr := "" } }).outcome
      = Except.error RunError.tokenRequired ∧
     (run { overlay := "", branch := "", tag := "v1", githubToken := "", repoPath := "" }
        { fsExists := fun _ => true
          exec := fun _ => { exitCode := 0, stdout := "x", stderr := "" } }).execCalls = [] ∧
     RunError.tokenRequired.isConfigurationError = true) :=
  ⟨(run_validation_spec _ _).1 rfl,
   (run_validation_spec _ _).2.1 rfl rfl,
   (run_validation_spec _ _).2.2 rfl (by decide) rfl⟩

/-- Claim C6 counterexample: the command line is a flat shell string, so
with the overlay absent but a tag whose text embeds the filter flag, the
built command line is literally identical to one built with an overlay —
it does contain a filter argument. -/
theorem buildCmd_overlay_cex :
    buildCmd "main" "v1 -envFilter hack" "" = buildCmd "main" "v1" "hack" ∧
    theCmd { overlay := "", branch := "main", tag := "v1 -envFilter hack"
             githubToken := "t", repoPath := "." }
      = cmdBase "main" "v1" ++ " -envFilter " ++ "hack" := ⟨rfl, rfl⟩

/-- Claim C6 (amended): when the environment filter is present the built
command line is exactly the base command followed by the filter flag and
the overlay value; when it is absent the command line is exactly the
base command — no filter argument is appended (though filter-flag text
may still occur inside the free-form tag or branch values). -/
theorem buildCmd_filter_spec (branch tag overlay : String) :
    (overlay ≠ "" →
      buildCmd branch tag overlay = cmdBase branch tag ++ " -envFilter " ++ overlay) ∧
    (overlay = "" → buildCmd branch tag overlay = cmdBase branch tag) := by
  constructor <;> intro h <;> simp [buildCmd, h]

/-- Claim C6 witness: the amended characterization at concrete inputs. -/
theorem buildCmd_filter_spec_witness :
    buildCmd "main" "v1.2.3" "production"
      = cmdBase "main" "v1.2.3" ++ " -envFilter " ++ "production" ∧
    buildCmd "main" "v1.2.3" "" = cmdBase "main" "v1.2.3" :=
  ⟨(buildCmd_filter_spec "main" "v1.2.3" "production").1 (by decide),
   (buildCmd_filter_spec "main" "v1.2.3" "").2 rfl⟩

/-- Claim C10: an optional input supplied as the empty string behaves
exactly like an absent one — empty branch runs like branch `main`, empty
repository path runs like `.`, and an empty overlay builds the base
command line with no filter argument. -/
theorem run_empty_optionals_default (cfg : Config) (w : World) :
    run { cfg with branch := "" } w = run { cfg with branch := "main" } w ∧
    run { cfg with repoPath := "" } w = run { cfg with repoPath := "." } w ∧
    theCmd { cfg with overlay := "" } = cmdBase (resolvedBranch cfg) cfg.tag := by
  refine ⟨?_, ?_, ?_⟩
  · exact run_resolved_congr _ _ w rfl (by simp [resolvedBranch]) rfl rfl rfl
  · exact run_resolved_congr _ _ w rfl rfl rfl rfl (by simp [resolvedRepoPath])
  · simp [theCmd, buildCmd, resolvedBranch]

/-- Claim C4: a zero-status subprocess whose captured standard output is
empty after trimming fails the run with the empty-result
`SubprocessError`; no JSON decoding happens (the outcome is the
empty-result error, not a parse error). -/
theorem run_empty_output_spec (cfg : Config) (w : World)
    (hfs : w.fsExists (resolvedRepoPath cfg) = true)
    (htag : cfg.tag ≠ "") (htok : cfg.githubToken ≠ "")
    (hexit : (w.exec (theCall cfg)).exitCode = 0)
    (hempty : jsTrim (w.exec (theCall cfg)).stdout = "") :
    (run cfg w).outcome = Except.error RunError.emptyResult ∧
    RunError.emptyResult.isSubprocessError = true ∧
    (run cfg w).failures = [errorMessage RunError.emptyResult] ∧
    RunError.emptyResult.isMatrixParseError = false := by
  simp [run, hfs, htag, htok, hexit, hempty, failEffects,
    RunError.isSubprocessError, RunError.isMatrixParseError]

/-- Claim C4 witness: a concrete run with exit status zero and
whitespace-only output fails with the empty-result subprocess error. -/
theorem run_empty_output_spec_witness :
    (run { overlay := "", branch := "", tag := "v1", githubToken := "t", repoPath := "" }
        { fsExists := fun _ => true
          exec := fun _ => { exitCode := 0, stdout := "  \n ", stderr := "" } }).outcome
      = Except.error RunError.emptyResult ∧
    RunError.emptyResult.isSubprocessError = true ∧
    (run { overlay := "", branch := "", tag := "v1", githubToken := "t", repoPath := "" }
        { fsExists := fun _ => true
          exec := fun _ => { exitCode := 0, stdout := "  \n ", stderr := "" } }).failures
      = [errorMessage RunError.emptyResult] ∧
    RunError.emptyResult.isMatrixParseError = false :=
  run_empty_output_spec _ _ rfl (by decide) (by decide) rfl rfl

/-- Claim C5: output that fails to decode as JSON fails the run with a
`MatrixParseError` whose message embeds the literal offending output
text. -/
theorem run_parse_failure_spec (cfg : Config) (w : World)
    (hfs : w.fsExists (resolvedRepoPath cfg) = true)
    (htag : cfg.tag ≠ "") (htok : cfg.githubToken ≠ "")
    (hexit : (w.exec (theCall cfg)).exitCode = 0)
    (hne : jsTrim (w.exec (theCall cfg)).stdout ≠ "")
    (hdec : jsonParse (jsTrim (w.exec (theCall cfg)).stdout) = none) :
    (run cfg w).outcome
      = Except.error (RunError.parseFailed (w.exec (theCall cfg)).stdout) ∧
    (RunError.parseFailed (w.exec (theCall cfg)).stdout).isMatrixParseError = true ∧
    (run cfg w).failures
      = [errorMessage (RunError.parseFailed (w.exec (theCall cfg)).stdout)] ∧
    ∃ pre, errorMessage (RunError.parseFailed (w.exec (theCall cfg)).stdout)
      = pre ++ (w.exec (theCall cfg)).stdout := by
  have hnorm : normalize (w.exec (theCall cfg)).stdout
      = ([], Except.error (RunError.parseFailed (w.exec (theCall cfg)).stdout)) := by
    simp [normalize, hdec]
  refine ⟨?_, rfl, ?_,
    ⟨"Failed to parse matrix JSON: " ++ jsonSyntaxErrorMessage ++ "\nOutput: ", rfl⟩⟩
  · simp [run, hfs, htag, htok, hexit, hne, hnorm, failEffects]
  · simp [run, hfs, htag, htok, hexit, hne, hnorm, failEffects]

/-- Claim C5 witness: output `not json` fails the run with a parse error
carrying the offending text. -/
theorem run_parse_failure_spec_witness :
    (run { overlay := "", branch := "", tag := "v1", githubToken := "t", repoPath := "" }
        { fsExists := fun _ => true
          exec := fun _ => { exitCode := 0, stdout := "not json", stderr := "" } }).outcome
      = Except.error (RunError.parseFailed "not json") ∧
    (RunError.parseFailed "not json").isMatrixParseError = true ∧
    (run { overlay := "", branch := "", tag := "v1", githubToken := "t", repoPath := "" }
        { fsExists := fun _ => true
          exec := fun _ => { exitCode := 0, stdout := "not json", stderr := "" } }).failures
      = [errorMessage (RunError.parseFailed "not json")] ∧
    ∃ pre, errorMessage (RunError.parseFailed "not json") = pre ++ "not json" :=
  run_parse_failure_spec _ _ rfl (by decide) (by decide) rfl (by decide) rfl

/-- Claim C1: when the trimmed output decodes to a JSON string, exactly
one further decode pass runs on that string content: a successful second
decode is the final value even when it is itself again a string, and a
failing second decode fails the run with a `MatrixParseError`. -/
theorem run_double_encoded_spec (cfg : Config) (w : World) (s : String)
    (hfs : w.fsExists (resolvedRepoPath cfg) = true)
    (htag : cfg.tag ≠ "") (htok : cfg.githubToken ≠ "")
    (hexit : (w.exec (theCall cfg)).exitCode = 0)
    (hdec : jsonParse (jsTrim (w.exec (theCall cfg)).stdout) = some (Json.str s)) :
    (∀ v, jsonParse s = some v →
      (run cfg w).outcome = Except.ok v ∧
      (run cfg w).outputs = [("matrix", jsonStringify v)]) ∧
    (jsonParse s = none →
      (run cfg w).outcome
        = Except.error (RunError.parseFailed (w.exec (theCall cfg)).stdout) ∧
      (RunError.parseFailed (w.exec (theCall cfg)).stdout).isMatrixParseError = true) := by
  have hne : jsTrim (w.exec (theCall cfg)).stdout ≠ "" := by
    intro h
    rw [h, jsonParse_empty] at hdec
    exact Option.noConfusion hdec
  constructor
  · intro v hv
    have hnorm : normalize (w.exec (theCall cfg)).stdout
        = (["Detected double-encoded JSON, decoding..."], Except.ok v) := by
      simp [normalize, hdec, hv]
    constructor <;> simp [run, hfs, htag, htok, hexit, hne, hnorm]
  · intro hv
    have hnorm : normalize (w.exec (theCall cfg)).stdout
        = (["Detected double-encoded JSON, decoding..."],
            Except.error (RunError.parseFailed (w.exec (theCall cfg)).stdout)) := by
      simp [normalize, hdec, hv]
    exact ⟨by simp [run, hfs, htag, htok, hexit, hne, hnorm, failEffects], rfl⟩

/-- Claim C1 witness: a double-encoded JSON string whose inner document
is itself a string — the second decode's result (the string `hi`) is
final, with no third pass — and a double-encoded payload whose content
is not JSON, which fails with a parse error. -/
theorem run_double_encoded_spec_witness :
    ((run { overlay := "", branch := "", tag := "v1", githubToken := "t", repoPath := "" }
        { fsExists := fun _ => true
          exec := fun _ => { exitCode := 0, stdout := "\"\\\"hi\\\"\"", stderr := "" } }).outcome
      = Except.ok (Json.str "hi") ∧
     (run { overlay := "", branch := "", tag := "v1", githubToken := "t", repoPath := "" }
        { fsExists := fun _ => true
          exec := fun _ => { exitCode := 0, stdout := "\"\\\"hi\\\"\"", stderr := "" } }).outputs
      = [("matrix", jsonStringify (Json.str "hi"))]) ∧
    ((run { overlay := "", branch := "", tag := "v1", githubToken := "t", repoPath := "" }
        { fsExists := fun _ => true
          exec := fun _ => { exitCode := 0, stdout := "\"oops\"", stderr := "" } }).outcome
      = Except.error (RunError.parseFailed "\"oops\"") ∧
     (RunError.parseFailed "\"oops\"").isMatrixParseError = true) :=
  ⟨(run_double_encoded_spec
      { overlay := "", branch := "", tag := "v1", githubToken := "t", repoPath := "" }
      { fsExists := fun _ => true
        exec := fun _ => { exitCode := 0, stdout := "\"\\\"hi\\\"\"", stderr := "" } }
      "\"hi\"" rfl (by decide) (by decide) rfl rfl).1 (Json.str "hi") rfl,
   (run_double_encoded_spec
      { overlay := "", branch := "", tag := "v1", githubToken := "t", repoPath := "" }
      { fsExists := fun _ => true
        exec := fun _ => { exitCode := 0, stdout := "\"oops\"", stderr := "" } }
      "oops" rfl (by decide) (by decide) rfl rfl).2 rfl⟩

/-- Claim C3: when the trimmed output decodes to a non-string JSON value
it is used as-is — no unwrap pass runs (no unwrap log line is emitted)
and the value is republished unchanged. -/
theorem run_single_encoded_spec (cfg : Config) (w : World) (v : Json)
    (hfs : w.fsExists (resolvedRepoPath cfg) = true)
    (htag : cfg.tag ≠ "") (htok : cfg.githubToken ≠ "")
    (hexit : (w.exec (theCall cfg)).exitCode = 0)
    (hdec : jsonParse (jsTrim (w.exec (theCall cfg)).stdout) = some v)
    (hns : ∀ s, v ≠ Json.str s) :
    (run cfg w).outcome = Except.ok v ∧
    (run cfg w).outputs = [("matrix", jsonStringify v)] ∧
    (normalize (w.exec (theCall cfg)).stdout).1 = [] := by
  have hne : jsTrim (w.exec (theCall cfg)).stdout ≠ "" := by
    intro h
    rw [h, jsonParse_empty] at hdec
    exact Option.noConfusion hdec
  have hnorm : normalize (w.exec (theCall cfg)).stdout = ([], Except.ok v) := by
    cases v with
    | str s => exact absurd rfl (hns s)
    | null => simp [normalize, hdec]
    | bool b => simp [normalize, hdec]
    | num n => simp [normalize, hdec]
    | arr xs => simp [normalize, hdec]
    | obj ms => simp [normalize, hdec]
  refine ⟨?_, ?_, by rw [hnorm]⟩ <;> simp [run, hfs, htag, htok, hexit, hne, hnorm]

/-- Claim C3 witness: single-encoded output text for the empty matrix
object is republished byte-for-byte unchanged. -/
theorem run_single_encoded_spec_witness :
    (run { overlay := "", branch := "", tag := "v1", githubToken := "t", repoPath := "" }
        { fsExists := fun _ => true
          exec := fun _ =>
            { exitCode := 0, stdout := "\x7b\"include\":[]\x7d", stderr := "" } }).outcome
      = Except.ok (Json.obj [("include", Json.arr [])]) ∧
    (run { overlay := "", branch := "", tag := "v1", githubToken := "t", repoPath := "" }
        { fsExists := fun _ => true
          exec := fun _ =>
            { exitCode := 0, stdout := "\x7b\"include\":[]\x7d", stderr := "" } }).outputs
      = [("matrix", "\x7b\"include\":[]\x7d")] ∧
    (normalize "\x7b\"include\":[]\x7d").1 = [] := by
  have h := run_single_encoded_spec
    { overlay := "", branch := "", tag := "v1", githubToken := "t", repoPath := "" }
    { fsExists := fun _ => true
      exec := fun _ =>
        { exitCode := 0, stdout := "\x7b\"include\":[]\x7d", stderr := "" } }
    (Json.obj [("include", Json.arr [])])
    rfl (by decide) (by decide) rfl rfl (fun s hs => Json.noConfusion hs)
  exact ⟨h.1, h.2.1, h.2.2⟩

/-- Every run performs either zero subprocess invocations or exactly the
one built call. -/
theorem run_execCalls_shape (cfg : Config) (w : World) :
    (run cfg w).execCalls = [] ∨ (run cfg w).execCalls = [theCall cfg] := by
  simp only [run]
  split
  · exact Or.inl rfl
  · split
    · exact Or.inl rfl
    · split
      · exact Or.inl rfl
      · split
        · exact Or.inr rfl
        · split
          · exact Or.inr rfl
          · split
            · exact Or.inr rfl
            · exact Or.inr rfl

/-- Claim C9: two runs identical except for the (nonempty) credential
value produce identical logs, command lines, outputs, failure messages
and reports, provided the external subprocess behaves the same under
either token binding; the credential reaches the subprocess only through
the environment-token field of the recorded call. -/
theorem run_credential_noninterference (cfg : Config) (w : World) (t2 : String)
    (h1 : cfg.githubToken ≠ "") (h2 : t2 ≠ "")
    (hw : ∀ tool args cwd ta tb,
      w.exec { tool := tool, args := args, cwd := cwd, envToken := ta }
        = w.exec { tool := tool, args := args, cwd := cwd, envToken := tb }) :
    scrubToken (run cfg w) = scrubToken (run { cfg with githubToken := t2 } w) ∧
    ∀ c ∈ (run cfg w).execCalls, c.envToken = cfg.githubToken := by
  constructor
  · generalize hg : ({ cfg with githubToken := t2 } : Config) = cfg2
    have ho : cfg2.overlay = cfg.overlay := by rw [← hg]
    have htg : cfg2.tag = cfg.tag := by rw [← hg]
    have htk : cfg2.githubToken = t2 := by rw [← hg]
    have hrp : resolvedRepoPath cfg2 = resolvedRepoPath cfg := by rw [← hg]; rfl
    have hrb : resolvedBranch cfg2 = resolvedBranch cfg := by rw [← hg]; rfl
    have hcmd : theCmd cfg2 = theCmd cfg := by rw [← hg]; rfl
    have hexec : w.exec (theCall cfg2) = w.exec (theCall cfg) := by
      rw [← hg]; exact hw "bash" ["-c", theCmd cfg] (resolvedRepoPath cfg) t2 cfg.githubToken
    have hcall : ({ theCall cfg2 with envToken := "" } : ExecCall)
        = { theCall cfg with envToken := "" } := by rw [← hg]; rfl
    by_cases hfs : w.fsExists (resolvedRepoPath cfg) = false
    · have hfs2 : w.fsExists (resolvedRepoPath cfg2) = false := by rw [hrp]; exact hfs
      simp [run, hfs, hfs2, hrp, scrubToken, failEffects]
    · have hfs' : w.fsExists (resolvedRepoPath cfg) = true := by
        revert hfs; cases w.fsExists (resolvedRepoPath cfg) <;> simp
      have hfs2 : w.fsExists (resolvedRepoPath cfg2) = true := by rw [hrp]; exact hfs'
      by_cases htag : cfg.tag = ""
      · have htag2 : cfg2.tag = "" := by rw [htg]; exact htag
        simp [run, hfs', hfs2, htag, htag2, scrubToken, failEffects]
      · have htag2 : cfg2.tag ≠ "" := by rw [htg]; exact htag
        have htk2 : cfg2.githubToken ≠ "" := by rw [htk]; exact h2
        by_cases hec : (w.exec (theCall cfg)).exitCode = 0
        · by_cases hemp : jsTrim (w.exec (theCall cfg)).stdout = ""
          · simp [run, hfs', hfs2, htag, htag2, h1, htk2, hexec, hcmd, ho, hec, hemp,
              hcall, scrubToken, failEffects]
          · rcases hres : (normalize (w.exec (theCall cfg)).stdout).2 with e | m
            · simp [run, hfs', hfs2, htag, htag2, h1, htk2, hexec, hcmd, ho, hec, hemp,
                hres, hcall, scrubToken, failEffects]
            · simp [run, hfs', hfs2, htag, htag2, h1, htk2, hexec, hcmd, ho, htg, hrb,
                hec, hemp, hres, hcall, scrubToken]
        · simp [run, hfs', hfs2, htag, htag2, h1, htk2, hexec, hcmd, ho, hec,
            hcall, scrubToken, failEffects]
  · intro c hc
    rcases run_execCalls_shape cfg w with h | h
    · rw [h] at hc; exact absurd hc (List.not_mem_nil c)
    · rw [h] at hc
      rw [List.mem_singleton] at hc
      subst hc
      rfl

/-- Claim C9 witness: two concrete runs differing only in the credential
value produce identical scrubbed effects, and the recorded call carries
the credential in its environment-token binding. -/
theorem run_credential_noninterference_witness :
    scrubToken (run { overlay := "", branch := "", tag := "v1", githubToken := "tokA", repoPath := "" }
        { fsExists := fun _ => true
          exec := fun _ => { exitCode := 0, stdout := "1", stderr := "" } })
      = scrubToken (run { overlay := "", branch := "", tag := "v1", githubToken := "tokB", repoPath := "" }
        { fsExists := fun _ => true
          exec := fun _ => { exitCode := 0, stdout := "1", stderr := "" } }) ∧
    ∀ c ∈ (run { overlay := "", branch := "", tag := "v1", githubToken := "tokA", repoPath := "" }
        { fsExists := fun _ => true
          exec := fun _ => { exitCode := 0, stdout := "1", stderr := "" } }).execCalls,
      c.envToken = "tokA" :=
  run_credential_noninterference
    { overlay := "", branch := "", tag := "v1", githubToken := "tokA", repoPath := "" }
    { fsExists := fun _ => true
      exec := fun _ => { exitCode := 0, stdout := "1", stderr := "" } }
    "tokB" (by decide) (by decide) (fun _ _ _ _ _ => rfl)

/-! ## Numeral roundtrip lemmas -/

theorem digitChar_spec (n : Nat) (h : n < 10) :
    (Nat.digitChar n).isDigit = true ∧ charDigit (Nat.digitChar n) = n := by
  interval_cases n <;> exact ⟨by decide, by decide⟩

theorem digit_char_ne (c : Char) (h : c.isDigit = true) :
    c ≠ '\x7b' ∧ c ≠ '[' ∧ c ≠ '"' ∧ c ≠ 'n' ∧ c ≠ 't' ∧ c ≠ 'f' ∧ c ≠ '-' ∧
    c ≠ ']' ∧ c ≠ '\x7d' ∧ c ≠ ',' ∧ c ≠ ':' := by
  have hgen : ∀ d : Char, d.isDigit = false → c ≠ d := by
    intro d hd hcd
    subst hcd
    rw [h] at hd
    exact Bool.noConfusion hd
  exact ⟨hgen _ (by decide), hgen _ (by decide), hgen _ (by decide),
    hgen _ (by decide), hgen _ (by decide), hgen _ (by decide),
    hgen _ (by decide), hgen _ (by decide), hgen _ (by decide),
    hgen _ (by decide), hgen _ (by decide)⟩

theorem natToCharsF_digits : ∀ fuel n, n < fuel →
    ∀ c ∈ natToCharsF fuel n, c.isDigit = true := by
  intro fuel
  induction fuel with
  | zero => intro n h; exact absurd h (Nat.not_lt_zero n)
  | succ f ih =>
    intro n _ c hc
    rw [natToCharsF] at hc
    by_cases h10 : n < 10
    · rw [if_pos h10] at hc
      simp only [List.mem_singleton] at hc
      subst hc
      exact (digitChar_spec n h10).1
    · rw [if_neg h10] at hc
      rcases List.mem_append.mp hc with hc | hc
      · exact ih (n / 10) (by omega) c hc
      · simp only [List.mem_singleton] at hc
        subst hc
        exact (digitChar_spec (n % 10) (by omega)).1

theorem natToCharsF_ne_nil : ∀ fuel n, n < fuel → natToCharsF fuel n ≠ [] := by
  intro fuel n h
  cases fuel with
  | zero => exact absurd h (Nat.not_lt_zero n)
  | succ f =>
    rw [natToCharsF]
    by_cases h10 : n < 10
    · simp [h10]
    · simp [h10]

theorem natToCharsF_foldl : ∀ fuel n, n < fuel → ∀ a : Nat,
    (natToCharsF fuel n).foldl (fun a c => 10 * a + charDigit c) a
      = a * 10 ^ (natToCharsF fuel n).length + n := by
  intro fuel
  induction fuel with
  | zero => intro n h; exact absurd h (Nat.not_lt_zero n)
  | succ f ih =>
    intro n _ a
    rw [natToCharsF]
    by_cases h10 : n < 10
    · rw [if_pos h10]
      simp [List.foldl, (digitChar_spec n h10).2]
      omega
    · rw [if_neg h10]
      rw [List.foldl_append, List.length_append]
      rw [ih (n / 10) (by omega) a]
      simp only [List.foldl, List.length_singleton, (digitChar_spec (n % 10) (by omega)).2]
      have hmod : 10 * (n / 10) + n % 10 = n := by omega
      rw [pow_succ]
      generalize (10 : Nat) ^ (natToCharsF f (n / 10)).length = x
      calc 10 * (a * x + n / 10) + n % 10
          = a * (x * 10) + (10 * (n / 10) + n % 10) := by ring
        _ = a * (x * 10) + n := by rw [hmod]

theorem natToChars_digits (n : Nat) : ∀ c ∈ natToChars n, c.isDigit = true :=
  natToCharsF_digits (n + 1) n (Nat.lt_succ_self n)

theorem natToChars_ne_nil (n : Nat) : natToChars n ≠ [] :=
  natToCharsF_ne_nil (n + 1) n (Nat.lt_succ_self n)

theorem natToChars_val (n : Nat) :
    (natToChars n).foldl (fun a c => 10 * a + charDigit c) 0 = n := by
  have h := natToCharsF_foldl (n + 1) n (Nat.lt_succ_self n) 0
  simpa [natToChars] using h

theorem takeWhile_append_of_all (p : Char → Bool) (l r : List Char)
    (hl : ∀ c ∈ l, p c = true) (hr : ∀ c t, r = c :: t → p c = false) :
    (l ++ r).takeWhile p = l := by
  induction l with
  | nil =>
    cases r with
    | nil => rfl
    | cons c t => simp [List.takeWhile_cons, hr c t rfl]
  | cons c l ih =>
    rw [List.cons_append, List.takeWhile_cons, if_pos (hl c (List.mem_cons_self c l)),
      ih fun d hd => hl d (List.mem_cons_of_mem c hd)]

theorem dropWhile_append_of_all (p : Char → Bool) (l r : List Char)
    (hl : ∀ c ∈ l, p c = true) (hr : ∀ c t, r = c :: t → p c = false) :
    (l ++ r).dropWhile p = r := by
  induction l with
  | nil =>
    cases r with
    | nil => rfl
    | cons c t => simp [List.dropWhile_cons, hr c t rfl]
  | cons c l ih =>
    rw [List.cons_append, List.dropWhile_cons, if_pos (hl c (List.mem_cons_self c l)),
      ih fun d hd => hl d (List.mem_cons_of_mem c hd)]

theorem parseDigits_append (l r : List Char) (hl : ∀ c ∈ l, c.isDigit = true)
    (hne : l ≠ []) (hr : ∀ c t, r = c :: t → c.isDigit = false) :
    parseDigits (l ++ r)
      = some (l.foldl (fun a c => 10 * a + charDigit c) 0, r) := by
  unfold parseDigits
  rw [takeWhile_append_of_all _ l r hl hr, dropWhile_append_of_all _ l r hl hr]
  simp [List.isEmpty_iff, hne]

theorem parseDigits_natToChars (n : Nat) (r : List Char)
    (hr : ∀ c t, r = c :: t → c.isDigit = false) :
    parseDigits (natToChars n ++ r) = some (n, r) := by
  rw [parseDigits_append _ _ (natToChars_digits n) (natToChars_ne_nil n) hr,
    natToChars_val]

theorem parseNumber_intToChars (i : Int) (r : List Char)
    (hr : ∀ c t, r = c :: t → c.isDigit = false) :
    parseNumber (intToChars i ++ r) = some (i, r) := by
  unfold intToChars
  by_cases hneg : i < 0
  · rw [if_pos hneg]
    show parseNumber ('-' :: (natToChars i.natAbs ++ r)) = some (i, r)
    simp [parseNumber, parseDigits_natToChars i.natAbs r hr, abs_of_neg hneg]
  · rw [if_neg hneg]
    obtain ⟨c, t, hct⟩ := List.exists_cons_of_ne_nil (natToChars_ne_nil i.toNat)
    have hcd : c.isDigit = true := natToChars_digits i.toNat c (by rw [hct]; simp)
    rw [hct]
    show parseNumber ((c :: t) ++ r) = some (i, r)
    rw [List.cons_append, parseNumber.eq_def]
    simp only [if_neg (digit_char_ne c hcd).2.2.2.2.2.2.1]
    rw [← List.cons_append, ← hct, parseDigits_natToChars i.toNat r hr]
    have hval : ((i.toNat : Nat) : Int) = i := by omega
    simp [hval]

/-! ## String-literal roundtrip -/

theorem parseStrChars_escape (l r : List Char) :
    parseStrChars (escapeChars l ++ '"' :: r) = some (l, r) := by
  induction l with
  | nil =>
    show parseStrChars ('"' :: r) = some ([], r)
    rw [parseStrChars.eq_def]
    simp
  | cons c t ih =>
    by_cases hc : c = '"' ∨ c = '\\'
    · rw [escapeChars, if_pos hc]
      show parseStrChars ('\\' :: (c :: (escapeChars t ++ '"' :: r))) = some (c :: t, r)
      rcases hc with rfl | rfl
      · simp [parseStrChars, unescapeChar, ih]
      · simp [parseStrChars, unescapeChar, ih]
    · obtain ⟨h1, h2⟩ := not_or.mp hc
      rw [escapeChars, if_neg hc]
      show parseStrChars (c :: (escapeChars t ++ '"' :: r)) = some (c :: t, r)
      rw [parseStrChars.eq_def]
      simp only [if_neg h1, if_neg h2, ih]

/-! ## Shape of serialized output -/

/-- The first character of any serialized value: never whitespace and
never one of the closing delimiters or separators. -/
theorem stringify_head (v : Json) :
    ∃ c t, stringifyChars v = c :: t ∧ c.isWhitespace = false ∧
      (c ≠ ']' ∧ c ≠ '\x7d' ∧ c ≠ ',' ∧ c ≠ ':') := by
  cases v with
  | null => exact ⟨'n', "ull".data, rfl, by decide, by decide⟩
  | bool b =>
    cases b with
    | true => exact ⟨'t', "rue".data, rfl, by decide, by decide⟩
    | false => exact ⟨'f', "alse".data, rfl, by decide, by decide⟩
  | str s => exact ⟨'"', _, rfl, by decide, by decide⟩
  | arr xs => exact ⟨'[', _, rfl, by decide, by decide⟩
  | obj ms => exact ⟨'\x7b', _, rfl, by decide, by decide⟩
  | num i =>
    rw [stringifyChars, intToChars]
    by_cases hneg : i < 0
    · rw [if_pos hneg]
      exact ⟨'-', _, rfl, by decide, by decide⟩
    · rw [if_neg hneg]
      obtain ⟨c, t, hct⟩ := List.exists_cons_of_ne_nil (natToChars_ne_nil i.toNat)
      have hcd : c.isDigit = true := natToChars_digits i.toNat c (by rw [hct]; simp)
      obtain ⟨_, _, _, _, _, _, _, h8, h9, h10, h11⟩ := digit_char_ne c hcd
      exact ⟨c, t, hct, digit_not_ws c hcd, h8, h9, h10, h11⟩

/-- The last character of any serialized value is never whitespace. -/
theorem stringify_last (v : Json) :
    ∃ l c, stringifyChars v = l ++ [c] ∧ c.isWhitespace = false := by
  cases v with
  | null => exact ⟨"nul".data, 'l', rfl, by decide⟩
  | bool b =>
    cases b with
    | true => exact ⟨"tru".data, 'e', rfl, by decide⟩
    | false => exact ⟨"fals".data, 'e', rfl, by decide⟩
  | str s =>
    refine ⟨'"' :: escapeChars s.data, '"', ?_, by decide⟩
    rw [stringifyChars]
    rfl
  | arr xs =>
    refine ⟨'[' :: elemsChars xs, ']', ?_, by decide⟩
    rw [stringifyChars]
    rfl
  | obj ms =>
    refine ⟨'\x7b' :: membersChars ms, '\x7d', ?_, by decide⟩
    rw [stringifyChars]
    rfl
  | num i =>
    have hlast : ∀ m : Nat, ∃ l c, natToChars m = l ++ [c] ∧ c.isWhitespace = false := by
      intro m
      rcases List.eq_nil_or_concat (natToChars m) with hnil | ⟨l, c, hlc⟩
      · exact absurd hnil (natToChars_ne_nil m)
      · rw [List.concat_eq_append] at hlc
        refine ⟨l, c, hlc, digit_not_ws c (natToChars_digits m c ?_)⟩
        rw [hlc]
        exact List.mem_append_right l (List.mem_singleton_self c)
    rw [stringifyChars, intToChars]
    by_cases hneg : i < 0
    · rw [if_pos hneg]
      obtain ⟨l, c, hlc, hws⟩ := hlast i.natAbs
      exact ⟨'-' :: l, c, by rw [hlc]; rfl, hws⟩
    · rw [if_neg hneg]
      exact hlast i.toNat

/-! ## Parser reduction lemmas -/

theorem string_mk_data (s : String) : String.mk s.data = s := rfl

theorem digitFreeHead_spec (r : List Char) (h : digitFreeHead r = true) :
    ∀ c t, r = c :: t → c.isDigit = false := by
  intro c t hct
  subst hct
  simp [digitFreeHead] at h
  exact h

theorem parseValue_succ_lbrace (fuel : Nat) (r : List Char) :
    parseValue (fuel + 1) ('\x7b' :: r)
      = match skipWs r with
        | [] => none
        | c2 :: r2 =>
          if c2 = '\x7d' then some (.obj [], r2)
          else
            match parseMembers fuel (c2 :: r2) with
            | some (ms, r3) => some (.obj ms, r3)
            | none => none := rfl

theorem parseValue_succ_lbracket (fuel : Nat) (r : List Char) :
    parseValue (fuel + 1) ('[' :: r)
      = match skipWs r with
        | [] => none
        | c2 :: r2 =>
          if c2 = ']' then some (.arr [], r2)
          else
            match parseElems fuel (c2 :: r2) with
            | some (vs, r3) => some (.arr vs, r3)
            | none => none := rfl

theorem parseValue_succ_quote (fuel : Nat) (r : List Char) :
    parseValue (fuel + 1) ('"' :: r)
      = match parseStrChars r with
        | some (l, r2) => some (.str (String.mk l), r2)
        | none => none := rfl

theorem parseValue_succ_number (fuel : Nat) (c : Char) (r : List Char)
    (h : c = '-' ∨ c.isDigit = true) :
    parseValue (fuel + 1) (c :: r)
      = match parseNumber (c :: r) with
        | some (n, r2) => some (.num n, r2)
        | none => none := by
  have hws : c.isWhitespace = false := by
    rcases h with rfl | hd
    · decide
    · exact digit_not_ws c hd
  have hne : c ≠ '\x7b' ∧ c ≠ '[' ∧ c ≠ '"' ∧ c ≠ 'n' ∧ c ≠ 't' ∧ c ≠ 'f' := by
    rcases h with rfl | hd
    · exact ⟨by decide, by decide, by decide, by decide, by decide, by decide⟩
    · obtain ⟨a1, a2, a3, a4, a5, a6, _⟩ := digit_char_ne c hd
      exact ⟨a1, a2, a3, a4, a5, a6⟩
  obtain ⟨h1, h2, h3, h4, h5, h6⟩ := hne
  rw [parseValue]
  rw [skipWs_cons_of_not_ws c r hws]
  simp only [if_neg h1, if_neg h2, if_neg h3, if_neg h4, if_neg h5, if_neg h6, if_pos h]

theorem parseElems_succ (fuel : Nat) (cs : List Char) :
    parseElems (fuel + 1) cs
      = match parseValue fuel cs with
        | none => none
        | some (v, r) =>
          match skipWs r with
          | [] => none
          | c :: r2 =>
            if c = ',' then
              match parseElems fuel r2 with
              | none => none
              | some (vs, r3) => some (v :: vs, r3)
            else if c = ']' then some ([v], r2)
            else none := rfl

theorem parseMembers_succ_quote (fuel : Nat) (r : List Char) :
    parseMembers (fuel + 1) ('"' :: r)
      = match parseStrChars r with
        | none => none
        | some (k, r2) =>
          match skipWs r2 with
          | [] => none
          | c2 :: r3 =>
            if c2 = ':' then
              match parseValue fuel r3 with
              | none => none
              | some (v, r4) =>
                match skipWs r4 with
                | [] => none
                | c3 :: r5 =>
                  if c3 = ',' then
                    match parseMembers fuel r5 with
                    | none => none
                    | some (ms, r6) => some ((String.mk k, v) :: ms, r6)
                  else if c3 = '\x7d' then some ([(String.mk k, v)], r5)
                  else none
            else none := rfl

/-! ## Size bounds -/

theorem sizeJ_pos (v : Json) : 1 ≤ sizeJ v := by
  cases v <;> simp [sizeJ]

/-! ## The roundtrip: parsing recovers a serialized value -/

theorem parse_stringify (fuel : Nat) :
    (∀ v rest, sizeJ v ≤ fuel → digitFreeHead rest = true →
      parseValue fuel (stringifyChars v ++ rest) = some (v, rest)) ∧
    (∀ xs rest, xs ≠ [] → sizeElems xs ≤ fuel →
      parseElems fuel (elemsChars xs ++ ']' :: rest) = some (xs, rest)) ∧
    (∀ ms rest, ms ≠ [] → sizeMembers ms ≤ fuel →
      parseMembers fuel (membersChars ms ++ '\x7d' :: rest) = some (ms, rest)) := by
  induction fuel with
  | zero =>
    refine ⟨fun v rest hs _ => absurd hs (by have := sizeJ_pos v; omega),
      fun xs rest hne hs => ?_, fun ms rest hne hs => ?_⟩
    · cases xs with
      | nil => exact absurd rfl hne
      | cons x t => rw [sizeElems] at hs; omega
    · cases ms with
      | nil => exact absurd rfl hne
      | cons m t =>
        obtain ⟨k, v⟩ := m
        rw [sizeMembers] at hs
        omega
  | succ fuel ih =>
    obtain ⟨ihV, ihE, ihM⟩ := ih
    refine ⟨?_, ?_, ?_⟩
    · intro v rest hs hrest
      cases v with
      | null => rfl
      | bool b =>
        cases b with
        | true => rfl
        | false => rfl
      | num i =>
        have hr : ∀ c t, rest = c :: t → c.isDigit = false := digitFreeHead_spec rest hrest
        rw [show stringifyChars (Json.num i) = intToChars i from rfl]
        by_cases hneg : i < 0
        · rw [show intToChars i = '-' :: natToChars i.natAbs from by
            rw [intToChars, if_pos hneg]]
          rw [List.cons_append]
          rw [parseValue_succ_number fuel '-' _ (Or.inl rfl)]
          rw [show '-' :: (natToChars i.natAbs ++ rest) = intToChars i ++ rest from by
            rw [intToChars, if_pos hneg]; rfl]
          rw [parseNumber_intToChars i rest hr]
        · rw [show intToChars i = natToChars i.toNat from by
            rw [intToChars, if_neg hneg]]
          obtain ⟨c, t, hct⟩ := List.exists_cons_of_ne_nil (natToChars_ne_nil i.toNat)
          have hcd : c.isDigit = true := natToChars_digits i.toNat c (by rw [hct]; simp)
          rw [hct, List.cons_append]
          rw [parseValue_succ_number fuel c _ (Or.inr hcd)]
          rw [show c :: (t ++ rest) = natToChars i.toNat ++ rest from by rw [hct]; rfl]
          rw [show natToChars i.toNat = intToChars i from by rw [intToChars, if_neg hneg]]
          rw [parseNumber_intToChars i rest hr]
      | str s =>
        have hshape : stringifyChars (Json.str s) ++ rest
            = '"' :: (escapeChars s.data ++ '"' :: rest) := by
          rw [show stringifyChars (Json.str s)
              = '"' :: (escapeChars s.data ++ ['"']) from rfl]
          simp [List.append_assoc]
        rw [hshape, parseValue_succ_quote, parseStrChars_escape]
      | arr xs =>
        cases xs with
        | nil => rfl
        | cons x t =>
          obtain ⟨c, tc, hct, hws, hdelim⟩ := stringify_head x
          have hE : ∃ E, elemsChars (x :: t) = c :: E := by
            cases t with
            | nil => exact ⟨tc, by rw [show elemsChars [x] = stringifyChars x from rfl, hct]⟩
            | cons y t2 =>
              refine ⟨tc ++ ',' :: elemsChars (y :: t2), ?_⟩
              rw [show elemsChars (x :: y :: t2)
                  = stringifyChars x ++ ',' :: elemsChars (y :: t2) from rfl, hct]
              rfl
          obtain ⟨E, hEq⟩ := hE
          have hsz : sizeElems (x :: t) ≤ fuel := by
            rw [show sizeJ (Json.arr (x :: t)) = sizeElems (x :: t) + 1 from rfl] at hs
            omega
          have hinput : stringifyChars (Json.arr (x :: t)) ++ rest
              = '[' :: (elemsChars (x :: t) ++ ']' :: rest) := by
            rw [show stringifyChars (Json.arr (x :: t))
                = '[' :: (elemsChars (x :: t) ++ [']']) from rfl]
            simp [List.append_assoc]
          rw [hinput, parseValue_succ_lbracket]
          rw [hEq, List.cons_append, skipWs_cons_of_not_ws c _ hws]
          simp only [if_neg hdelim.1]
          rw [show c :: (E ++ ']' :: rest) = elemsChars (x :: t) ++ ']' :: rest from by
            rw [hEq]; rfl]
          rw [ihE (x :: t) rest (List.cons_ne_nil x t) hsz]
      | obj ms =>
        cases ms with
        | nil => rfl
        | cons m tms =>
          obtain ⟨k, v⟩ := m
          have hsz : sizeMembers ((k, v) :: tms) ≤ fuel := by
            rw [show sizeJ (Json.obj ((k, v) :: tms))
                = sizeMembers ((k, v) :: tms) + 1 from rfl] at hs
            omega
          have hM : ∃ E, membersChars ((k, v) :: tms) = '"' :: E := by
            cases tms with
            | nil => exact ⟨escapeChars k.data ++ '"' :: ':' :: stringifyChars v, rfl⟩
            | cons m2 t2 =>
              exact ⟨(escapeChars k.data ++ '"' :: ':' :: stringifyChars v)
                ++ ',' :: membersChars (m2 :: t2), rfl⟩
          obtain ⟨E, hEq⟩ := hM
          have hinput : stringifyChars (Json.obj ((k, v) :: tms)) ++ rest
              = '\x7b' :: (membersChars ((k, v) :: tms) ++ '\x7d' :: rest) := by
            rw [show stringifyChars (Json.obj ((k, v) :: tms))
                = '\x7b' :: (membersChars ((k, v) :: tms) ++ ['\x7d']) from rfl]
            simp [List.append_assoc]
          rw [hinput, parseValue_succ_lbrace]
          rw [hEq, List.cons_append, skipWs_cons_of_not_ws '"' _ (by decide)]
          simp only [if_neg (by decide : ¬ ('"' : Char) = '\x7d')]
          rw [show '"' :: (E ++ '\x7d' :: rest)
              = membersChars ((k, v) :: tms) ++ '\x7d' :: rest from by rw [hEq]; rfl]
          rw [ihM ((k, v) :: tms) rest (List.cons_ne_nil _ _) hsz]
    · intro xs rest hne hs
      cases xs with
      | nil => exact absurd rfl hne
      | cons x t =>
        have hsx : sizeJ x ≤ fuel := by rw [sizeElems] at hs; omega
        cases t with
        | nil =>
          rw [show elemsChars [x] ++ ']' :: rest = stringifyChars x ++ ']' :: rest from rfl]
          rw [parseElems_succ]
          rw [ihV x (']' :: rest) hsx rfl]
          rfl
        | cons y t2 =>
          have hse : sizeElems (y :: t2) ≤ fuel := by
            rw [sizeElems, sizeElems] at hs
            rw [sizeElems]
            omega
          have hinput : elemsChars (x :: y :: t2) ++ ']' :: rest
              = stringifyChars x ++ ',' :: (elemsChars (y :: t2) ++ ']' :: rest) := by
            rw [show elemsChars (x :: y :: t2)
                = stringifyChars x ++ ',' :: elemsChars (y :: t2) from rfl]
            simp [List.append_assoc]
          rw [hinput, parseElems_succ]
          rw [ihV x (',' :: (elemsChars (y :: t2) ++ ']' :: rest)) hsx rfl]
          show (match parseElems fuel (elemsChars (y :: t2) ++ ']' :: rest) with
                | none => none
                | some (vs, r3) => some (x :: vs, r3)) = some (x :: y :: t2, rest)
          rw [ihE (y :: t2) rest (List.cons_ne_nil y t2) hse]
    · intro ms rest hne hs
      cases ms with
      | nil => exact absurd rfl hne
      | cons m tms =>
        obtain ⟨k, v⟩ := m
        have hsv : sizeJ v ≤ fuel := by
          have hs2 : sizeJ v + sizeMembers tms + 1 ≤ fuel + 1 := hs
          omega
        cases tms with
        | nil =>
          have hinput : membersChars [(k, v)] ++ '\x7d' :: rest
              = '"' :: (escapeChars k.data
                  ++ '"' :: ':' :: (stringifyChars v ++ '\x7d' :: rest)) := by
            rw [show membersChars [(k, v)]
                = '"' :: (escapeChars k.data ++ '"' :: ':' :: stringifyChars v) from rfl]
            simp [List.append_assoc]
          rw [hinput, parseMembers_succ_quote]
          rw [parseStrChars_escape k.data (':' :: (stringifyChars v ++ '\x7d' :: rest))]
          show (match parseValue fuel (stringifyChars v ++ '\x7d' :: rest) with
                | none => none
                | some (v2, r4) =>
                  match skipWs r4 with
                  | [] => none
                  | c3 :: r5 =>
                    if c3 = ',' then
                      match parseMembers fuel r5 with
                      | none => none
                      | some (ms2, r6) => some ((String.mk k.data, v2) :: ms2, r6)
                    else if c3 = '\x7d' then some ([(String.mk k.data, v2)], r5)
                    else none) = some ([(k, v)], rest)
          rw [ihV v ('\x7d' :: rest) hsv rfl]
          rfl
        | cons m2 t2 =>
          have hsm : sizeMembers (m2 :: t2) ≤ fuel := by
            rw [sizeMembers] at hs
            omega
          have hinput : membersChars ((k, v) :: m2 :: t2) ++ '\x7d' :: rest
              = '"' :: (escapeChars k.data ++ '"' :: ':'
                  :: (stringifyChars v ++ ',' :: (membersChars (m2 :: t2) ++ '\x7d' :: rest))) := by
            rw [show membersChars ((k, v) :: m2 :: t2)
                = '"' :: ((escapeChars k.data ++ '"' :: ':' :: stringifyChars v)
                    ++ ',' :: membersChars (m2 :: t2)) from rfl]
            simp [List.append_assoc]
          rw [hinput, parseMembers_succ_quote]
          rw [parseStrChars_escape k.data
            (':' :: (stringifyChars v ++ ',' :: (membersChars (m2 :: t2) ++ '\x7d' :: rest)))]
          show (match parseValue fuel
                  (stringifyChars v ++ ',' :: (membersChars (m2 :: t2) ++ '\x7d' :: rest)) with
                | none => none
                | some (v2, r4) =>
                  match skipWs r4 with
                  | [] => none
                  | c3 :: r5 =>
                    if c3 = ',' then
                      match parseMembers fuel r5 with
                      | none => none
                      | some (ms2, r6) => some ((String.mk k.data, v2) :: ms2, r6)
                    else if c3 = '\x7d' then some ([(String.mk k.data, v2)], r5)
                    else none) = some ((k, v) :: m2 :: t2, rest)
          rw [ihV v (',' :: (membersChars (m2 :: t2) ++ '\x7d' :: rest)) hsv rfl]
          show (match parseMembers fuel (membersChars (m2 :: t2) ++ '\x7d' :: rest) with
                | none => none
                | some (ms2, r6) => some ((String.mk k.data, v) :: ms2, r6))
              = some ((k, v) :: m2 :: t2, rest)
          rw [ihM (m2 :: t2) rest (List.cons_ne_nil m2 t2) hsm]

mutual

theorem sizeJ_le_len (v : Json) : sizeJ v ≤ (stringifyChars v).length := by
  cases v with
  | null => decide
  | bool b => cases b <;> decide
  | num i =>
    rw [show sizeJ (Json.num i) = 1 from rfl,
      show stringifyChars (Json.num i) = intToChars i from rfl, intToChars]
    by_cases hneg : i < 0
    · rw [if_pos hneg]
      simp only [List.length_cons]
      omega
    · rw [if_neg hneg]
      have := List.length_pos.mpr (natToChars_ne_nil i.toNat)
      omega
  | str s =>
    rw [show sizeJ (Json.str s) = 1 from rfl,
      show stringifyChars (Json.str s) = '"' :: (escapeChars s.data ++ ['"']) from rfl]
    simp only [List.length_cons]
    omega
  | arr xs =>
    have h := sizeElems_le_len xs
    rw [show sizeJ (Json.arr xs) = sizeElems xs + 1 from rfl,
      show stringifyChars (Json.arr xs) = '[' :: (elemsChars xs ++ [']']) from rfl]
    simp only [List.length_cons, List.length_append, List.length_singleton]
    omega
  | obj ms =>
    have h := sizeMembers_le_len ms
    rw [show sizeJ (Json.obj ms) = sizeMembers ms + 1 from rfl,
      show stringifyChars (Json.obj ms) = '\x7b' :: (membersChars ms ++ ['\x7d']) from rfl]
    simp only [List.length_cons, List.length_append, List.length_singleton]
    omega

theorem sizeElems_le_len (xs : List Json) : sizeElems xs ≤ (elemsChars xs).length + 1 := by
  cases xs with
  | nil => decide
  | cons x t =>
    have hx := sizeJ_le_len x
    cases t with
    | nil =>
      rw [show sizeElems [x] = sizeJ x + 0 + 1 from rfl,
        show elemsChars [x] = stringifyChars x from rfl]
      omega
    | cons y t2 =>
      have ht := sizeElems_le_len (y :: t2)
      rw [show sizeElems (x :: y :: t2) = sizeJ x + sizeElems (y :: t2) + 1 from rfl,
        show elemsChars (x :: y :: t2)
          = stringifyChars x ++ ',' :: elemsChars (y :: t2) from rfl]
      simp only [List.length_append, List.length_cons]
      omega

theorem sizeMembers_le_len (ms : List (String × Json)) :
    sizeMembers ms ≤ (membersChars ms).length + 1 := by
  cases ms with
  | nil => decide
  | cons m tms =>
    obtain ⟨k, v⟩ := m
    have hv := sizeJ_le_len v
    cases tms with
    | nil =>
      rw [show sizeMembers [(k, v)] = sizeJ v + 0 + 1 from rfl,
        show membersChars [(k, v)]
          = '"' :: (escapeChars k.data ++ '"' :: ':' :: stringifyChars v) from rfl]
      simp only [List.length_cons, List.length_append]
      omega
    | cons m2 t2 =>
      have ht := sizeMembers_le_len (m2 :: t2)
      rw [show sizeMembers ((k, v) :: m2 :: t2)
          = sizeJ v + sizeMembers (m2 :: t2) + 1 from rfl,
        show membersChars ((k, v) :: m2 :: t2)
          = '"' :: ((escapeChars k.data ++ '"' :: ':' :: stringifyChars v)
              ++ ',' :: membersChars (m2 :: t2)) from rfl]
      simp only [List.length_cons, List.length_append]
      omega

end

/-- Parsing a serialized document recovers the value exactly. -/
theorem jsonParse_stringify (v : Json) : jsonParse (jsonStringify v) = some v := by
  have hfuel : sizeJ v ≤ (stringifyChars v).length + 1 := by
    have := sizeJ_le_len v
    omega
  have h := (parse_stringify ((stringifyChars v).length + 1)).1 v [] hfuel rfl
  rw [List.append_nil] at h
  rw [jsonParse]
  rw [show (jsonStringify v).data = stringifyChars v from rfl]
  rw [h]
  rfl

/-- Serialized output carries no surrounding whitespace, so trimming is
the identity on it. -/
theorem jsTrim_stringify (v : Json) : jsTrim (jsonStringify v) = jsonStringify v := by
  obtain ⟨c, t, hct, hws, _⟩ := stringify_head v
  obtain ⟨l, e, hle, hwe⟩ := stringify_last v
  rw [jsTrim, jsonStringify]
  rw [show (String.mk (stringifyChars v)).data = stringifyChars v from rfl]
  rw [trimChars]
  rw [hct, List.dropWhile_cons, if_neg (by simp [hws])]
  rw [← hct, hle]
  rw [show (l ++ [e]).reverse = e :: l.reverse from by
    rw [List.reverse_append]; rfl]
  rw [List.dropWhile_cons, if_neg (by simp [hwe])]
  rw [show (e :: l.reverse).reverse = l ++ [e] from by
    rw [List.reverse_cons, List.reverse_reverse]]

/-- Claim C8: the Result Normalizer is idempotent on its own non-string
canonical output — feeding the re-serialized string form of any
non-string result back through normalization yields the same value, with
no unwrap pass (and no unwrap log line). -/
theorem normalize_idempotent_on_canonical (v : Json) (hns : ∀ s, v ≠ Json.str s) :
    normalize (jsonStringify v) = ([], Except.ok v) := by
  have hparse : jsonParse (jsTrim (jsonStringify v)) = some v := by
    rw [jsTrim_stringify, jsonParse_stringify]
  cases v with
  | str s => exact absurd rfl (hns s)
  | null => simp [normalize, hparse]
  | bool b => simp [normalize, hparse]
  | num n => simp [normalize, hparse]
  | arr xs => simp [normalize, hparse]
  | obj ms => simp [normalize, hparse]

/-- Claim C8 witness: re-normalizing the canonical serialization of the
matrix object with an empty include list yields it back unchanged. -/
theorem normalize_idempotent_on_canonical_witness :
    normalize (jsonStringify (Json.obj [("include", Json.arr [])]))
      = ([], Except.ok (Json.obj [("include", Json.arr [])])) :=
  normalize_idempotent_on_canonical (Json.obj [("include", Json.arr [])])
    (fun _ hs => Json.noConfusion hs)

end DeployMatrix
